import Mathlib

/-!
Shallow embedding of src/Amsgrad.py, the MLX AMSGrad optimizer.

Modelling conventions:
* An mx.array is modelled as a rank-1 real tensor, List ℝ.  Elementwise
  arithmetic on two arrays follows MLX broadcasting for rank-1 operands:
  equal lengths act pointwise, a length-1 operand broadcasts against the
  other, and incompatible lengths raise (modelled as Option.none).
* Floating point is modelled by exact real arithmetic.
* self.learning_rate (line 56 of the source) is the value of the
  learning-rate policy at the optimizer's current global step: a constant
  learning rate is a constant function of the step, a schedule is an
  arbitrary function of it.  apply_single therefore takes the global step
  as an explicit argument.
* The Python method mutates the state dict after computing m, v, v_hat
  (lines 73-76) and only then computes the returned parameter (line 78);
  the embedding preserves this order so that a failure in the final
  arithmetic would leave the already-rebound state visible.
-/

namespace Amsgrad

noncomputable section

/-- Rank-1 real tensor standing for an mx.array. -/
abbrev Tensor := List ℝ

/-- mx.zeros_like for a tensor of length n. -/
def zeros (n : ℕ) : Tensor := List.replicate n 0

/-- Elementwise combination of two arrays with MLX rank-1 broadcasting:
equal lengths act pointwise, a length-1 array broadcasts against the other,
anything else fails. -/
def ewise (f : ℝ → ℝ → ℝ) (xs ys : Tensor) : Option Tensor :=
  if xs.length = ys.length then some (List.zipWith f xs ys)
  else if xs.length = 1 then some (ys.map (fun y => f xs.headI y))
  else if ys.length = 1 then some (xs.map (fun x => f x ys.headI))
  else none

/-- Scalar times array, as in b1 * m on line 68. -/
def smul (c : ℝ) (xs : Tensor) : Tensor := xs.map (fun x => c * x)

/-- mx.square: elementwise square (line 70). -/
def square (xs : Tensor) : Tensor := xs.map (fun x => x ^ 2)

/-- Hyperparameters fixed at construction (lines 33-44).  learning_rate is
the learning-rate policy as a function of the optimizer's global step. -/
structure Hyper where
  learning_rate : ℕ → ℝ
  beta1 : ℝ
  beta2 : ℝ
  eps : ℝ
  beta_decay : Bool

/-- Per-parameter optimizer state: the keys m, v, v_hat, t of the state
dict (lines 48-51, 73-76). -/
structure AmsState where
  m : Tensor
  v : Tensor
  v_hat : Tensor
  t : ℕ

/-- init_single (lines 46-51): zero moments shaped like the parameter,
step counter 1. -/
def init_single (parameter : Tensor) : AmsState :=
  ⟨zeros parameter.length, zeros parameter.length, zeros parameter.length, 1⟩

/-- Effective first-moment coefficient (lines 57, 65-66): beta1, divided by
the pre-increment step counter when beta_decay is set. -/
def b1eff (h : Hyper) (t : ℕ) : ℝ :=
  if h.beta_decay then h.beta1 / (t : ℝ) else h.beta1

/-- apply_single (lines 53-78).  Returns the optional new parameter (none
models an exception escaping the call) together with the state dict as the
caller sees it afterwards: unchanged if a failure happens before the
rebinding on lines 73-76, rebound otherwise. -/
def apply_single (h : Hyper) (step : ℕ) (gradient parameter : Tensor)
    (state : AmsState) : Option Tensor × AmsState :=
  match ewise (fun a b => a + b) (smul (b1eff h state.t) state.m)
      (smul (1 - b1eff h state.t) gradient) with
  | none => (none, state)
  | some m =>
    match ewise (fun a b => a + b) (smul h.beta2 state.v)
        (smul (1 - h.beta2) (square gradient)) with
    | none => (none, state)
    | some v =>
      match ewise max state.v_hat v with
      | none => (none, state)
      | some v_hat =>
        match ewise (fun a b => a / b)
            m ((v_hat.map Real.sqrt).map (fun x => x + h.eps)) with
        | none => (none, ⟨m, v, v_hat, state.t + 1⟩)
        | some q =>
          match ewise (fun a b => a - b) parameter
              (smul (h.learning_rate step) q) with
          | none => (none, ⟨m, v, v_hat, state.t + 1⟩)
          | some p => (some p, ⟨m, v, v_hat, state.t + 1⟩)

/-- Sequential application of a list of gradients, threading the returned
parameter and state; none as soon as one call fails. -/
def applyIter (h : Hyper) (step : ℕ) :
    List Tensor → Tensor × AmsState → Option (Tensor × AmsState)
  | [], ps => some ps
  | g :: gs, ps =>
    match apply_single h step g ps.1 ps.2 with
    | (some p, st) => applyIter h step gs (p, st)
    | (none, _) => none

/-- Run a gradient sequence from a freshly initialized state. -/
def stateAfter (h : Hyper) (step : ℕ) (p0 : Tensor)
    (gs : List Tensor) : Option (Tensor × AmsState) :=
  applyIter h step gs (p0, init_single p0)

/-- One step of the second-moment recurrence of line 70. -/
def vStep (b2 : ℝ) (v g : Tensor) : Tensor :=
  List.zipWith (fun vi gi => b2 * vi + (1 - b2) * gi ^ 2) v g

/-- All v values observed while feeding a gradient sequence through the
recurrence of line 70, in order. -/
def vTrace (b2 : ℝ) : Tensor → List Tensor → List Tensor
  | _, [] => []
  | v, g :: gs => vStep b2 v g :: vTrace b2 (vStep b2 v g) gs

/-- Elementwise maximum of a starting tensor and a list of tensors. -/
def maxFold (x0 : Tensor) (ws : List Tensor) : Tensor :=
  List.foldl (fun a w => List.zipWith max a w) x0 ws

/-! Basic facts about ewise. -/

theorem ewise_same {f : ℝ → ℝ → ℝ} {xs ys : Tensor}
    (hl : xs.length = ys.length) :
    ewise f xs ys = some (List.zipWith f xs ys) := by
  simp [ewise, hl]

theorem ewise_right1 {f : ℝ → ℝ → ℝ} {xs ys : Tensor}
    (hl : xs.length ≠ ys.length) (hy : ys.length = 1) :
    ewise f xs ys = some (xs.map (fun x => f x ys.headI)) := by
  have hx : xs.length ≠ 1 := fun hx => hl (hx.trans hy.symm)
  unfold ewise
  rw [if_neg hl, if_neg hx, if_pos hy]

theorem ewise_left1 {f : ℝ → ℝ → ℝ} {xs ys : Tensor}
    (hl : xs.length ≠ ys.length) (hx : xs.length = 1) :
    ewise f xs ys = some (ys.map (fun y => f xs.headI y)) := by
  unfold ewise
  rw [if_neg hl, if_pos hx]

theorem ewise_fail {f : ℝ → ℝ → ℝ} {xs ys : Tensor}
    (hl : xs.length ≠ ys.length) (hx : xs.length ≠ 1) (hy : ys.length ≠ 1) :
    ewise f xs ys = none := by
  unfold ewise
  rw [if_neg hl, if_neg hx, if_neg hy]

/-- Shape-respecting call: with a gradient, parameter and state tensors all
of one length n, apply_single succeeds and returns exactly the AMSGrad
update formulas of lines 65-78. -/
theorem apply_single_spec (h : Hyper) (s : ℕ) (g p : Tensor) (st : AmsState)
    (n : ℕ) (hg : g.length = n) (hp : p.length = n) (hm : st.m.length = n)
    (hv : st.v.length = n) (hvh : st.v_hat.length = n) :
    apply_single h s g p st =
      (some (List.zipWith (fun pi qi => pi - h.learning_rate s * qi) p
        (List.zipWith (fun mi wi => mi / (Real.sqrt wi + h.eps))
          (List.zipWith (fun mi gi =>
              b1eff h st.t * mi + (1 - b1eff h st.t) * gi) st.m g)
          (List.zipWith max st.v_hat (vStep h.beta2 st.v g)))),
       ⟨List.zipWith (fun mi gi =>
            b1eff h st.t * mi + (1 - b1eff h st.t) * gi) st.m g,
        vStep h.beta2 st.v g,
        List.zipWith max st.v_hat (vStep h.beta2 st.v g),
        st.t + 1⟩) := by
  have e1 : ewise (fun a b => a + b) (smul (b1eff h st.t) st.m)
      (smul (1 - b1eff h st.t) g)
      = some (List.zipWith (fun mi gi =>
          b1eff h st.t * mi + (1 - b1eff h st.t) * gi) st.m g) := by
    rw [ewise_same (by simp [smul, hm, hg])]
    simp [smul, List.zipWith_map]
  have e2 : ewise (fun a b => a + b) (smul h.beta2 st.v)
      (smul (1 - h.beta2) (square g)) = some (vStep h.beta2 st.v g) := by
    rw [ewise_same (by simp [smul, square, hv, hg])]
    simp [smul, square, vStep, List.zipWith_map, List.map_map]
  have e3 : ewise max st.v_hat (vStep h.beta2 st.v g)
      = some (List.zipWith max st.v_hat (vStep h.beta2 st.v g)) :=
    ewise_same (by simp [vStep, hvh, hv, hg])
  have e4 : ewise (fun a b => a / b)
      (List.zipWith (fun mi gi =>
          b1eff h st.t * mi + (1 - b1eff h st.t) * gi) st.m g)
      (((List.zipWith max st.v_hat (vStep h.beta2 st.v g)).map
          Real.sqrt).map (fun x => x + h.eps))
      = some (List.zipWith (fun mi wi => mi / (Real.sqrt wi + h.eps))
          (List.zipWith (fun mi gi =>
              b1eff h st.t * mi + (1 - b1eff h st.t) * gi) st.m g)
          (List.zipWith max st.v_hat (vStep h.beta2 st.v g))) := by
    rw [List.map_map,
      ewise_same (by simp [vStep, hvh, hv, hg, hm])]
    simp [List.zipWith_map_right, Function.comp]
  have e5 : ewise (fun a b => a - b) p
      (smul (h.learning_rate s)
        (List.zipWith (fun mi wi => mi / (Real.sqrt wi + h.eps))
          (List.zipWith (fun mi gi =>
              b1eff h st.t * mi + (1 - b1eff h st.t) * gi) st.m g)
          (List.zipWith max st.v_hat (vStep h.beta2 st.v g))))
      = some (List.zipWith (fun pi qi => pi - h.learning_rate s * qi) p
          (List.zipWith (fun mi wi => mi / (Real.sqrt wi + h.eps))
            (List.zipWith (fun mi gi =>
                b1eff h st.t * mi + (1 - b1eff h st.t) * gi) st.m g)
            (List.zipWith max st.v_hat (vStep h.beta2 st.v g)))) := by
    rw [smul, ewise_same (by simp [vStep, hp, hm, hg, hv, hvh])]
    simp [List.zipWith_map_right]
  rw [apply_single]
  simp only [e1, e2, e3, e4, e5]

/-- Elementwise the running maximum dominates its first argument. -/
theorem forall2_le_zipWith_max :
    ∀ xs ys : List ℝ, xs.length = ys.length →
      List.Forall₂ (fun a b => a ≤ b) xs (List.zipWith max xs ys)
  | [], [], _ => List.Forall₂.nil
  | [], _ :: _, hl => by simp at hl
  | _ :: _, [], hl => by simp at hl
  | x :: xs, y :: ys, hl =>
    List.Forall₂.cons (le_max_left x y)
      (forall2_le_zipWith_max xs ys (by simpa using hl))

/-- Running a shape-respecting gradient sequence always succeeds; the step
counter advances by the number of calls, shapes are preserved, and the
final v_hat is the elementwise maximum of the starting v_hat and every v
value produced along the way. -/
theorem applyIter_spec (h : Hyper) (s : ℕ) (n : ℕ) :
    ∀ (gs : List Tensor) (p : Tensor) (st : AmsState),
      (∀ g ∈ gs, g.length = n) → p.length = n → st.m.length = n →
      st.v.length = n → st.v_hat.length = n →
      ∃ p' st', applyIter h s gs (p, st) = some (p', st') ∧
        p'.length = n ∧ st'.m.length = n ∧ st'.v.length = n ∧
        st'.v_hat.length = n ∧ st'.t = st.t + gs.length ∧
        st'.v_hat = maxFold st.v_hat (vTrace h.beta2 st.v gs) := by
  intro gs
  induction gs with
  | nil =>
    intro p st _ hp hm hv hvh
    exact ⟨p, st, rfl, hp, hm, hv, hvh, rfl, rfl⟩
  | cons g gs ih =>
    intro p st hgs hp hm hv hvh
    have hg : g.length = n := hgs g (List.mem_cons_self g gs)
    have hstep := apply_single_spec h s g p st n hg hp hm hv hvh
    have hvs : (vStep h.beta2 st.v g).length = n := by
      simp [vStep, hv, hg]
    obtain ⟨p', st', hiter, hlp, hlm, hlv, hlvh, ht, hvh'⟩ :=
      ih (List.zipWith (fun pi qi => pi - h.learning_rate s * qi) p
            (List.zipWith (fun mi wi => mi / (Real.sqrt wi + h.eps))
              (List.zipWith (fun mi gi =>
                  b1eff h st.t * mi + (1 - b1eff h st.t) * gi) st.m g)
              (List.zipWith max st.v_hat (vStep h.beta2 st.v g))))
        ⟨List.zipWith (fun mi gi =>
            b1eff h st.t * mi + (1 - b1eff h st.t) * gi) st.m g,
          vStep h.beta2 st.v g,
          List.zipWith max st.v_hat (vStep h.beta2 st.v g), st.t + 1⟩
        (fun g' hg' => hgs g' (List.mem_cons_of_mem g hg'))
        (by simp [hp, hm, hg, hv, hvh, hvs])
        (by simp [hm, hg]) (by simpa using hvs) (by simp [hvh, hvs])
    refine ⟨p', st', ?_, hlp, hlm, hlv, hlvh, ?_, ?_⟩
    · rw [applyIter, hstep]
      exact hiter
    · rw [ht]
      dsimp only
      simp only [List.length_cons]
      omega
    · rw [hvh']
      rfl

/-- Combining with the replicate of a list's own length acts like a map. -/
theorem zipWith_replicate_right_eq (f : ℝ → ℝ → ℝ) (b : ℝ) :
    ∀ xs : List ℝ,
      List.zipWith f xs (List.replicate xs.length b) = xs.map (fun x => f x b)
  | [] => rfl
  | x :: xs => by
    simp only [List.length_cons, List.replicate_succ, List.zipWith_cons_cons,
      List.map_cons, zipWith_replicate_right_eq f b xs]

/-- A zero gradient applied to an all-zero moment state leaves the moments
at zero and returns the parameter unchanged. -/
theorem apply_single_zero (h : Hyper) (s t : ℕ) (p : Tensor) :
    apply_single h s (zeros p.length) p
        ⟨zeros p.length, zeros p.length, zeros p.length, t⟩ =
      (some p, ⟨zeros p.length, zeros p.length, zeros p.length, t + 1⟩) := by
  rw [apply_single_spec h s (zeros p.length) p
    ⟨zeros p.length, zeros p.length, zeros p.length, t⟩ p.length
    (by simp [zeros]) rfl (by simp [zeros]) (by simp [zeros]) (by simp [zeros])]
  simp only [zeros, vStep, List.zipWith_replicate', mul_zero, add_zero,
    zero_add, max_self, ne_eq, OfNat.ofNat_ne_zero, not_false_eq_true,
    zero_pow, zero_div]
  rw [zipWith_replicate_right_eq]
  simp

/-- Iterating zero gradients from an all-zero moment state: nothing moves
except the step counter. -/
theorem applyIter_zero (h : Hyper) (s : ℕ) :
    ∀ (k t : ℕ) (p : Tensor),
      applyIter h s (List.replicate k (zeros p.length))
          (p, ⟨zeros p.length, zeros p.length, zeros p.length, t⟩) =
        some (p, ⟨zeros p.length, zeros p.length, zeros p.length, t + k⟩)
  | 0, t, p => by simp [applyIter]
  | k + 1, t, p => by
    have ih := applyIter_zero h s k (t + 1) p
    simp only [List.replicate_succ, applyIter, apply_single_zero h s t p, ih]
    have : t + 1 + k = t + (k + 1) := by omega
    rw [this]

/-! Concrete hyperparameters of the spec's numeric scenario:
beta1 = 0.9, beta2 = 0.999, eps = 1e-6, constant learning rate 0.1,
beta_decay disabled. -/

def hC2 : Hyper := ⟨fun _ => 0.1, 0.9, 0.999, 1e-6, false⟩

/-- The exact new parameter of the numeric scenario. -/
def c2val : ℝ := 1 - 0.1 * (0.2 / (Real.sqrt 0.004 + 1e-6))

/-- Exact evaluation of one apply on the numeric scenario. -/
theorem c2_eval :
    apply_single hC2 0 [2] [1] (init_single [1]) =
      (some [c2val], ⟨[0.2], [0.004], [0.004], 2⟩) := by
  rw [apply_single_spec hC2 0 [2] [1] (init_single [1]) 1 rfl rfl
    (by simp [init_single, zeros]) (by simp [init_single, zeros])
    (by simp [init_single, zeros])]
  have hmax : max (0:ℝ) (0.999 * 0 + (1 - 0.999) * 2 ^ 2) = 0.004 := by
    rw [max_eq_right] <;> norm_num
  simp only [init_single, zeros, List.length_cons, List.length_nil,
    List.replicate, vStep, List.zipWith_cons_cons, List.zipWith_nil_right,
    hmax]
  norm_num [hC2, b1eff, c2val]

theorem sqrt04_lo : (0.0632455 : ℝ) < Real.sqrt 0.004 :=
  (Real.lt_sqrt (by norm_num)).mpr (by norm_num)

theorem sqrt04_hi : Real.sqrt 0.004 < 0.0632456 :=
  (Real.sqrt_lt' (by norm_num)).mpr (by norm_num)

/-- Tight enclosure of the numeric scenario's new parameter. -/
theorem c2_bounds : 0.68377 < c2val ∧ c2val < 0.68378 := by
  have hlo := sqrt04_lo
  have hhi := sqrt04_hi
  have hnn := Real.sqrt_nonneg (0.004 : ℝ)
  have hdpos : (0:ℝ) < Real.sqrt 0.004 + 1e-6 := by
    have : (0:ℝ) < 1e-6 := by norm_num
    linarith
  constructor
  · have h1 : (0.2 : ℝ) / (Real.sqrt 0.004 + 1e-6) < 3.1623 := by
      rw [div_lt_iff₀ hdpos]
      nlinarith [hlo]
    simp only [c2val]
    linarith
  · have h2 : (3.1622 : ℝ) < 0.2 / (Real.sqrt 0.004 + 1e-6) := by
      rw [lt_div_iff₀ hdpos]
      nlinarith [hhi]
    simp only [c2val]
    linarith

/-- Once the three moment updates of lines 68-71 have succeeded on a state
whose tensors came from init or a prior apply, the arithmetic of line 78
(performed after the state dict has been rebound) cannot fail: the call
returns a parameter and the rebound state with the bumped step counter. -/
theorem apply_single_succeeds (h : Hyper) (s : ℕ) (g p : Tensor)
    (st : AmsState) (L : ℕ) (m₁ v₁ : Tensor)
    (e1 : ewise (fun a b => a + b) (smul (b1eff h st.t) st.m)
        (smul (1 - b1eff h st.t) g) = some m₁)
    (e2 : ewise (fun a b => a + b) (smul h.beta2 st.v)
        (smul (1 - h.beta2) (square g)) = some v₁)
    (hm₁ : m₁.length = L) (hv₁ : v₁.length = L)
    (hvh : st.v_hat.length = L ∨ st.v_hat.length = 1)
    (hp : p.length = L ∨ p.length = 1) :
    (apply_single h s g p st).1 ≠ none ∧
      ((apply_single h s g p st).2).t = st.t + 1 := by
  have hW : ∃ zs, ewise max st.v_hat v₁ = some zs ∧ zs.length = L := by
    by_cases hL3 : st.v_hat.length = v₁.length
    · exact ⟨_, ewise_same hL3, by simp [hL3, hv₁]⟩
    · have hx1 : st.v_hat.length = 1 := by
        rcases hvh with hA | hA
        · exact absurd (hA.trans hv₁.symm) hL3
        · exact hA
      exact ⟨_, ewise_left1 hL3 hx1, by simp [hv₁]⟩
  obtain ⟨w₁, e3, hw₁⟩ := hW
  have hQ : ∃ zs, ewise (fun a b => a / b) m₁
      ((w₁.map Real.sqrt).map (fun x => x + h.eps)) = some zs ∧
      zs.length = L := by
    refine ⟨_, ewise_same (by simp [hm₁, hw₁]), by simp [hm₁, hw₁]⟩
  obtain ⟨q₁, e4, hq₁⟩ := hQ
  have hR : ∃ zs, ewise (fun a b => a - b) p
      (smul (h.learning_rate s) q₁) = some zs := by
    by_cases hp5 : p.length = (smul (h.learning_rate s) q₁).length
    · exact ⟨_, ewise_same hp5⟩
    · have hx1 : p.length = 1 := by
        rcases hp with hA | hA
        · exact absurd (by simp [smul, hq₁, hA]) hp5
        · exact hA
      exact ⟨_, ewise_left1 hp5 hx1⟩
  obtain ⟨r₁, e5⟩ := hR
  rw [apply_single]
  simp only [e1, e2, e3, e4, e5]
  exact ⟨by simp, by simp⟩

/-- Claim C1: for every gradient g, parameter p and shape-matched state
{m, v, v_hat, t}, one call to apply returns
newParameter = p - lr * (m' / (sqrt(v_hat') + epsilon)) elementwise, where
m' = b1_eff * m + (1 - b1_eff) * g, v' = beta2 * v + (1 - beta2) * g^2,
v_hat' = elementwise_max(v_hat, v'), and the new state is
{m: m', v: v', v_hat: v_hat', t: t + 1}. -/
theorem amsgrad_c1 (h : Hyper) (s : ℕ) (g p : Tensor) (st : AmsState)
    (n : ℕ) (hg : g.length = n) (hp : p.length = n) (hm : st.m.length = n)
    (hv : st.v.length = n) (hvh : st.v_hat.length = n) :
    apply_single h s g p st =
      (some (List.zipWith (fun pi qi => pi - h.learning_rate s * qi) p
        (List.zipWith (fun mi wi => mi / (Real.sqrt wi + h.eps))
          (List.zipWith (fun mi gi =>
              b1eff h st.t * mi + (1 - b1eff h st.t) * gi) st.m g)
          (List.zipWith max st.v_hat (vStep h.beta2 st.v g)))),
       ⟨List.zipWith (fun mi gi =>
            b1eff h st.t * mi + (1 - b1eff h st.t) * gi) st.m g,
        vStep h.beta2 st.v g,
        List.zipWith max st.v_hat (vStep h.beta2 st.v g),
        st.t + 1⟩) :=
  apply_single_spec h s g p st n hg hp hm hv hvh

/-- Witness for C1 at beta1 = 0.9, beta2 = 0.999, eps = 1e-6, lr = 0.1,
parameter [1], gradient [2], freshly initialized state. -/
theorem amsgrad_c1_witness :
    apply_single hC2 0 [2] [1] (init_single [1]) =
      (some (List.zipWith (fun pi qi => pi - hC2.learning_rate 0 * qi) [1]
        (List.zipWith (fun mi wi => mi / (Real.sqrt wi + hC2.eps))
          (List.zipWith (fun mi gi =>
              b1eff hC2 (init_single [1]).t * mi +
                (1 - b1eff hC2 (init_single [1]).t) * gi)
            (init_single [1]).m [2])
          (List.zipWith max (init_single [1]).v_hat
            (vStep hC2.beta2 (init_single [1]).v [2])))),
       ⟨List.zipWith (fun mi gi =>
            b1eff hC2 (init_single [1]).t * mi +
              (1 - b1eff hC2 (init_single [1]).t) * gi)
          (init_single [1]).m [2],
        vStep hC2.beta2 (init_single [1]).v [2],
        List.zipWith max (init_single [1]).v_hat
          (vStep hC2.beta2 (init_single [1]).v [2]),
        (init_single [1]).t + 1⟩) :=
  amsgrad_c1 hC2 0 [2] [1] (init_single [1]) 1 rfl rfl
    (by simp [init_single, zeros]) (by simp [init_single, zeros])
    (by simp [init_single, zeros])

/-- Claim C2 (counterexample): in the spec's numeric scenario the new
parameter is exactly 1 - 0.1 * (0.2 / (sqrt 0.004 + 1e-6)), but that value
differs from the spec's stated approximation 0.68393 by more than 1e-4, so
the stated five-decimal approximation is wrong. -/
theorem amsgrad_c2_counterexample :
    (apply_single hC2 0 [2] [1] (init_single [1])).1 = some [c2val] ∧
      1e-4 < |c2val - 0.68393| := by
  refine ⟨by rw [c2_eval], ?_⟩
  have hhi := c2_bounds.2
  rw [abs_of_neg (by linarith)]
  linarith

/-- Claim C2 (amended): with beta1 = 0.9, beta2 = 0.999, eps = 1e-6,
lr = 0.1, scalar parameter 1.0 and gradient 2.0, one apply from the fresh
state yields m' = 0.2, v' = 0.004, v_hat' = 0.004, and
newParameter = 1.0 - 0.1 * (0.2 / (sqrt 0.004 + 1e-6)), which is
approximately 0.68378 (it lies strictly between 0.68377 and 0.68378),
not 0.68393. -/
theorem amsgrad_c2 :
    apply_single hC2 0 [2] [1] (init_single [1]) =
      (some [c2val], ⟨[0.2], [0.004], [0.004], 2⟩) ∧
    0.68377 < c2val ∧ c2val < 0.68378 :=
  ⟨c2_eval, c2_bounds⟩

/-- Claim C3: along any shape-matched gradient sequence from an
initialized state, v_hat is elementwise non-decreasing across each apply
call, and after any prefix it equals the elementwise maximum of the
all-zero start tensor and every v value observed so far. -/
theorem amsgrad_c3 (h : Hyper) (s : ℕ) (p0 : Tensor) (gs : List Tensor)
    (hgs : ∀ g ∈ gs, g.length = p0.length) :
    (∀ (g p : Tensor) (st : AmsState), g.length = p0.length →
        p.length = p0.length → st.m.length = p0.length →
        st.v.length = p0.length → st.v_hat.length = p0.length →
        List.Forall₂ (fun a b => a ≤ b) st.v_hat
          ((apply_single h s g p st).2).v_hat) ∧
      ∃ p' st', stateAfter h s p0 gs = some (p', st') ∧
        st'.v_hat = maxFold (zeros p0.length)
          (vTrace h.beta2 (zeros p0.length) gs) := by
  constructor
  · intro g p st hg hp hm hv hvh
    rw [apply_single_spec h s g p st p0.length hg hp hm hv hvh]
    exact forall2_le_zipWith_max _ _ (by simp [vStep, hv, hg, hvh])
  · obtain ⟨p', st', hit, _, _, _, _, _, hvh'⟩ :=
      applyIter_spec h s p0.length gs p0 (init_single p0) hgs rfl
        (by simp [init_single, zeros]) (by simp [init_single, zeros])
        (by simp [init_single, zeros])
    refine ⟨p', st', hit, ?_⟩
    rw [hvh']
    rfl

/-- Witness for C3 with two concrete scalar gradients. -/
theorem amsgrad_c3_witness :
    (∀ (g p : Tensor) (st : AmsState), g.length = ([1] : Tensor).length →
        p.length = ([1] : Tensor).length →
        st.m.length = ([1] : Tensor).length →
        st.v.length = ([1] : Tensor).length →
        st.v_hat.length = ([1] : Tensor).length →
        List.Forall₂ (fun a b => a ≤ b) st.v_hat
          ((apply_single hC2 0 g p st).2).v_hat) ∧
      ∃ p' st', stateAfter hC2 0 [1] [[2], [3]] = some (p', st') ∧
        st'.v_hat = maxFold (zeros ([1] : Tensor).length)
          (vTrace hC2.beta2 (zeros ([1] : Tensor).length) [[2], [3]]) :=
  amsgrad_c3 hC2 0 [1] [[2], [3]] (by
    intro g hg
    simp only [List.mem_cons, List.not_mem_nil, or_false] at hg
    rcases hg with rfl | rfl <;> rfl)

/-- Claim C4: t is set to 1 by init, every successful apply call increments
it by exactly 1 regardless of the beta_decay branch, and after running n
shape-matched gradients from a fresh init the stored t equals 1 + n. -/
theorem amsgrad_c4 (h : Hyper) (s : ℕ) (p0 : Tensor) (gs : List Tensor)
    (hgs : ∀ g ∈ gs, g.length = p0.length) :
    (init_single p0).t = 1 ∧
    (∀ (g p : Tensor) (st : AmsState),
        (apply_single h s g p st).1 ≠ none →
        ((apply_single h s g p st).2).t = st.t + 1) ∧
    ∃ p' st', stateAfter h s p0 gs = some (p', st') ∧
      st'.t = 1 + gs.length := by
  refine ⟨rfl, ?_, ?_⟩
  · intro g p st
    rw [apply_single]
    repeat' split
    all_goals intro hne
    all_goals simp_all
  · obtain ⟨p', st', hit, _, _, _, _, ht, _⟩ :=
      applyIter_spec h s p0.length gs p0 (init_single p0) hgs rfl
        (by simp [init_single, zeros]) (by simp [init_single, zeros])
        (by simp [init_single, zeros])
    exact ⟨p', st', hit, ht⟩

/-- Witness for C4 with two concrete scalar gradients. -/
theorem amsgrad_c4_witness :
    (init_single ([1] : Tensor)).t = 1 ∧
    (∀ (g p : Tensor) (st : AmsState),
        (apply_single hC2 0 g p st).1 ≠ none →
        ((apply_single hC2 0 g p st).2).t = st.t + 1) ∧
    ∃ p' st', stateAfter hC2 0 [1] [[2], [3]] = some (p', st') ∧
      st'.t = 1 + ([[2], [3]] : List Tensor).length :=
  amsgrad_c4 hC2 0 [1] [[2], [3]] (by
    intro g hg
    simp only [List.mem_cons, List.not_mem_nil, or_false] at hg
    rcases hg with rfl | rfl <;> rfl)

/-- Claim C5: with beta_decay disabled, repeatedly applying the all-zero
gradient from a fresh init keeps m, v and v_hat at zero for every number
of steps and returns the parameter unchanged at every step. -/
theorem amsgrad_c5 (h : Hyper) (s : ℕ) (p0 : Tensor) (k : ℕ)
    (hbd : h.beta_decay = false) :
    stateAfter h s p0 (List.replicate k (zeros p0.length)) =
      some (p0, ⟨zeros p0.length, zeros p0.length, zeros p0.length,
        1 + k⟩) := by
  rw [stateAfter]
  exact applyIter_zero h s k 1 p0

/-- Witness for C5: three zero-gradient steps on the scalar parameter 1. -/
theorem amsgrad_c5_witness :
    stateAfter hC2 0 [1] (List.replicate 3 (zeros ([1] : Tensor).length)) =
      some (([1] : Tensor), ⟨zeros ([1] : Tensor).length,
        zeros ([1] : Tensor).length, zeros ([1] : Tensor).length, 1 + 3⟩) :=
  amsgrad_c5 hC2 0 [1] 3 rfl

/-- Hyperparameters of the beta-decay scenario: beta1 = 0.9 with
beta_decay enabled. -/
def hC6 : Hyper := ⟨fun _ => 0.1, 0.9, 0.999, 1e-6, true⟩

/-- Claim C6: with beta_decay enabled the coefficient used by apply for
the first moment is beta1 divided by the pre-increment step counter t,
whatever beta1 is configured (and plain beta1 when beta_decay is
disabled); concretely, when beta1 = 0.9 the coefficient is 0.9 at t = 1
and 0.45 at t = 2, and a call at counter t leaves counter t + 1 for the
next call. -/
theorem amsgrad_c6 (h : Hyper) (s : ℕ) (g p : Tensor) (st : AmsState)
    (n : ℕ) (hg : g.length = n) (hp : p.length = n) (hm : st.m.length = n)
    (hv : st.v.length = n) (hvh : st.v_hat.length = n)
    (hbd : h.beta_decay = true) :
    ((apply_single h s g p st).2).m =
      List.zipWith (fun mi gi =>
        (h.beta1 / (st.t : ℝ)) * mi +
          (1 - h.beta1 / (st.t : ℝ)) * gi) st.m g ∧
    (∀ h' : Hyper, h'.beta_decay = false → ∀ t : ℕ, b1eff h' t = h'.beta1) ∧
    (h.beta1 = 0.9 → b1eff h 1 = 0.9 ∧ b1eff h 2 = 0.45) ∧
    ((apply_single h s g p st).2).t = st.t + 1 := by
  have hs := apply_single_spec h s g p st n hg hp hm hv hvh
  have hbe : b1eff h st.t = h.beta1 / (st.t : ℝ) := by simp [b1eff, hbd]
  refine ⟨?_, ?_, ?_, ?_⟩
  · rw [hs]
    simp [hbe]
  · intro h' hbd' t
    simp [b1eff, hbd']
  · intro hb1
    constructor
    · simp [b1eff, hbd, hb1]
    · simp [b1eff, hbd, hb1]
      norm_num
  · rw [hs]

/-- Witness for C6 at the beta-decay hyperparameters on a fresh state. -/
theorem amsgrad_c6_witness :
    ((apply_single hC6 0 [2] [1] (init_single [1])).2).m =
      List.zipWith (fun mi gi =>
        (hC6.beta1 / ((init_single ([1] : Tensor)).t : ℝ)) * mi +
          (1 - hC6.beta1 / ((init_single ([1] : Tensor)).t : ℝ)) * gi)
        (init_single ([1] : Tensor)).m [2] ∧
    (∀ h' : Hyper, h'.beta_decay = false → ∀ t : ℕ, b1eff h' t = h'.beta1) ∧
    (hC6.beta1 = 0.9 → b1eff hC6 1 = 0.9 ∧ b1eff hC6 2 = 0.45) ∧
    ((apply_single hC6 0 [2] [1] (init_single [1])).2).t =
      (init_single ([1] : Tensor)).t + 1 :=
  amsgrad_c6 hC6 0 [2] [1] (init_single [1]) 1 rfl rfl
    (by simp [init_single, zeros]) (by simp [init_single, zeros])
    (by simp [init_single, zeros]) rfl

/-- Claim C7: apply is atomic for states whose tensors share the
parameter's shape: either the call fails and the state dict is returned
untouched, or it succeeds and both the parameter and the state (with the
bumped step counter) are replaced. -/
theorem amsgrad_c7 (h : Hyper) (s : ℕ) (g p : Tensor) (st : AmsState)
    (hm : st.m.length = p.length) (hv : st.v.length = p.length)
    (hvh : st.v_hat.length = p.length) :
    apply_single h s g p st = (none, st) ∨
      ((apply_single h s g p st).1 ≠ none ∧
        ((apply_single h s g p st).2).t = st.t + 1) := by
  by_cases h1 : g.length = p.length
  · exact Or.inr (apply_single_succeeds h s g p st p.length _ _
      (ewise_same (by simp [smul, hm, h1]))
      (ewise_same (by simp [smul, square, hv, h1]))
      (by simp [smul, hm, h1]) (by simp [smul, square, hv, h1])
      (Or.inl hvh) (Or.inl rfl))
  · by_cases h2 : g.length = 1
    · have hl1 : (smul (b1eff h st.t) st.m).length ≠
          (smul (1 - b1eff h st.t) g).length := by
        simp only [smul, List.length_map, hm]
        exact fun hh => h1 hh.symm
      have hl2 : (smul h.beta2 st.v).length ≠
          (smul (1 - h.beta2) (square g)).length := by
        simp only [smul, square, List.length_map, hv]
        exact fun hh => h1 hh.symm
      exact Or.inr (apply_single_succeeds h s g p st p.length _ _
        (ewise_right1 hl1 (by simp [smul, h2]))
        (ewise_right1 hl2 (by simp [smul, square, h2]))
        (by simp [smul, hm]) (by simp [smul, hv])
        (Or.inl hvh) (Or.inl rfl))
    · by_cases h3 : p.length = 1
      · have hl1 : (smul (b1eff h st.t) st.m).length ≠
            (smul (1 - b1eff h st.t) g).length := by
          simp only [smul, List.length_map, hm, h3]
          exact fun hh => h2 hh.symm
        have hl2 : (smul h.beta2 st.v).length ≠
            (smul (1 - h.beta2) (square g)).length := by
          simp only [smul, square, List.length_map, hv, h3]
          exact fun hh => h2 hh.symm
        exact Or.inr (apply_single_succeeds h s g p st g.length _ _
          (ewise_left1 hl1 (by simp [smul, hm, h3]))
          (ewise_left1 hl2 (by simp [smul, hv, h3]))
          (by simp [smul]) (by simp [smul, square])
          (Or.inr (hvh.trans h3)) (Or.inr h3))
      · have hfail : ewise (fun a b => a + b) (smul (b1eff h st.t) st.m)
            (smul (1 - b1eff h st.t) g) = none := by
          refine ewise_fail ?_ ?_ ?_
          · simp only [smul, List.length_map, hm]
            exact fun hh => h1 hh.symm
          · simp only [smul, List.length_map, hm]
            exact h3
          · simp only [smul, List.length_map]
            exact h2
        rw [apply_single, hfail]
        exact Or.inl rfl

/-- Witness for C7 on a shape-matched scalar call. -/
theorem amsgrad_c7_witness :
    apply_single hC2 0 [2] [1] (init_single [1]) =
        (none, init_single [1]) ∨
      ((apply_single hC2 0 [2] [1] (init_single [1])).1 ≠ none ∧
        ((apply_single hC2 0 [2] [1] (init_single [1])).2).t =
          (init_single ([1] : Tensor)).t + 1) :=
  amsgrad_c7 hC2 0 [2] [1] (init_single [1])
    (by simp [init_single, zeros]) (by simp [init_single, zeros])
    (by simp [init_single, zeros])

/-- Claim C8 (counterexample): a length-1 gradient against a length-2
parameter is a shape mismatch, yet apply_single does not fail: the runtime
silently broadcasts and the call returns a parameter. -/
theorem amsgrad_c8_counterexample :
    ([(2 : ℝ)] : Tensor).length ≠ ([1, 1] : Tensor).length ∧
      (apply_single hC2 0 [2] [1, 1] (init_single [1, 1])).1 ≠ none := by
  constructor
  · simp
  · simp [apply_single, ewise, smul, square, init_single, zeros, b1eff, hC2,
      List.replicate]

/-- Claim C8 (amended): apply_single performs no shape validation of its
own.  For every state shaped like the parameter, every mismatched but
broadcast-compatible gradient (either side of length 1) is silently
broadcast and the call succeeds, while every broadcast-incompatible
mismatch fails with the runtime's error and leaves the state untouched;
no InvalidArgument check exists in apply. -/
theorem amsgrad_c8 (h : Hyper) (s : ℕ) (g p : Tensor) (st : AmsState)
    (hm : st.m.length = p.length) (hv : st.v.length = p.length)
    (hvh : st.v_hat.length = p.length) :
    (g.length ≠ p.length → g.length = 1 ∨ p.length = 1 →
      (apply_single h s g p st).1 ≠ none) ∧
    (g.length ≠ p.length → g.length ≠ 1 → p.length ≠ 1 →
      apply_single h s g p st = (none, st)) := by
  constructor
  · intro hne hcompat
    rcases hcompat with h2 | h3
    · have hl1 : (smul (b1eff h st.t) st.m).length ≠
          (smul (1 - b1eff h st.t) g).length := by
        simp only [smul, List.length_map, hm]
        exact fun hh => hne hh.symm
      have hl2 : (smul h.beta2 st.v).length ≠
          (smul (1 - h.beta2) (square g)).length := by
        simp only [smul, square, List.length_map, hv]
        exact fun hh => hne hh.symm
      exact (apply_single_succeeds h s g p st p.length _ _
        (ewise_right1 hl1 (by simp [smul, h2]))
        (ewise_right1 hl2 (by simp [smul, square, h2]))
        (by simp [smul, hm]) (by simp [smul, hv])
        (Or.inl hvh) (Or.inl rfl)).1
    · have hg1 : g.length ≠ 1 := fun hh => hne (hh.trans h3.symm)
      have hl1 : (smul (b1eff h st.t) st.m).length ≠
          (smul (1 - b1eff h st.t) g).length := by
        simp only [smul, List.length_map, hm, h3]
        exact fun hh => hg1 hh.symm
      have hl2 : (smul h.beta2 st.v).length ≠
          (smul (1 - h.beta2) (square g)).length := by
        simp only [smul, square, List.length_map, hv, h3]
        exact fun hh => hg1 hh.symm
      exact (apply_single_succeeds h s g p st g.length _ _
        (ewise_left1 hl1 (by simp [smul, hm, h3]))
        (ewise_left1 hl2 (by simp [smul, hv, h3]))
        (by simp [smul]) (by simp [smul, square])
        (Or.inr (hvh.trans h3)) (Or.inr h3)).1
  · intro hne hg1 hp1
    have hfail : ewise (fun a b => a + b) (smul (b1eff h st.t) st.m)
        (smul (1 - b1eff h st.t) g) = none := by
      refine ewise_fail ?_ ?_ ?_ <;> simp only [smul, List.length_map, hm]
      · exact fun hh => hne hh.symm
      · exact hp1
      · exact hg1
    rw [apply_single, hfail]

/-- Witness for the amended C8 at a length-1 gradient against a length-2
parameter and its freshly initialized state. -/
theorem amsgrad_c8_witness :
    (([(2 : ℝ)] : Tensor).length ≠ ([1, 1] : Tensor).length →
      ([(2 : ℝ)] : Tensor).length = 1 ∨ ([1, 1] : Tensor).length = 1 →
      (apply_single hC2 0 [2] [1, 1] (init_single [1, 1])).1 ≠ none) ∧
    (([(2 : ℝ)] : Tensor).length ≠ ([1, 1] : Tensor).length →
      ([(2 : ℝ)] : Tensor).length ≠ 1 → ([1, 1] : Tensor).length ≠ 1 →
      apply_single hC2 0 [2] [1, 1] (init_single [1, 1]) =
        (none, init_single [1, 1])) :=
  amsgrad_c8 hC2 0 [2] [1, 1] (init_single [1, 1])
    (by simp [init_single, zeros]) (by simp [init_single, zeros])
    (by simp [init_single, zeros])

/-- Hyperparameters with a genuine learning-rate schedule: the learning
rate at global step s is s + 1. -/
def hSched : Hyper := ⟨fun s => (s : ℝ) + 1, 0.9, 0.999, 1e-6, false⟩

/-- Evaluation of the scalar scenario under the scheduled learning rate,
for an arbitrary global step. -/
theorem sched_eval (s : ℕ) :
    apply_single hSched s [2] [1] (init_single [1]) =
      (some [1 - ((s : ℝ) + 1) * (0.2 / (Real.sqrt 0.004 + 1e-6))],
        ⟨[0.2], [0.004], [0.004], 2⟩) := by
  rw [apply_single_spec hSched s [2] [1] (init_single [1]) 1 rfl rfl
    (by simp [init_single, zeros]) (by simp [init_single, zeros])
    (by simp [init_single, zeros])]
  have hmax : max (0:ℝ) (0.999 * 0 + (1 - 0.999) * 2 ^ 2) = 0.004 := by
    rw [max_eq_right] <;> norm_num
  simp only [init_single, zeros, List.length_cons, List.length_nil,
    List.replicate, vStep, List.zipWith_cons_cons, List.zipWith_nil_right,
    hmax]
  norm_num [hSched, b1eff]

/-- Claim C9 (counterexample): with a callable learning-rate schedule, two
apply calls with identical gradient, parameter, state and hyperparameters
return different results at different global steps, so apply is not a
function of the three inputs plus the construction-time hyperparameters
alone. -/
theorem amsgrad_c9_counterexample :
    (apply_single hSched 0 [2] [1] (init_single [1])).1 ≠
      (apply_single hSched 1 [2] [1] (init_single [1])).1 := by
  intro heq
  rw [sched_eval 0, sched_eval 1] at heq
  have hq : (0:ℝ) < 0.2 / (Real.sqrt 0.004 + 1e-6) := by
    apply div_pos (by norm_num)
    have := Real.sqrt_nonneg (0.004 : ℝ)
    have h6 : (0:ℝ) < 1e-6 := by norm_num
    linarith
  simp only [Nat.cast_zero, Nat.cast_one, Option.some.injEq,
    List.cons.injEq, and_true] at heq
  nlinarith [heq, hq]

/-- Claim C9 (amended): apply is a deterministic function of gradient,
parameter, state, the hyperparameters and the global step used to resolve
the learning rate; in particular, whenever the learning-rate policy is
constant (independent of the step), apply is a pure function of its three
inputs plus the fixed hyperparameters. -/
theorem amsgrad_c9 (h : Hyper) (s1 s2 : ℕ) (g p : Tensor) (st : AmsState)
    (hconst : ∀ a b : ℕ, h.learning_rate a = h.learning_rate b) :
    apply_single h s1 g p st = apply_single h s2 g p st := by
  rw [apply_single, apply_single, hconst s1 s2]

/-- Witness for the amended C9: a constant learning rate gives identical
results at global steps 3 and 7. -/
theorem amsgrad_c9_witness :
    apply_single hC2 3 [2] [1] (init_single [1]) =
      apply_single hC2 7 [2] [1] (init_single [1]) :=
  amsgrad_c9 hC2 3 7 [2] [1] (init_single [1]) (fun _ _ => rfl)

end

end Amsgrad
